import Mathlib

/-!
Verification of the p-system-tools disk-image reader (`p-filer`).

The definitions below are a shallow embedding of the Rust source
(`src/p-filer/src/p_system_fs/mod.rs`, with `src/p-filer/src/main.rs`
holding a near-duplicate snapshot of the same code).  Bytes are modelled as
natural numbers, byte buffers as `List Nat`, and fallible operations
(Rust panics: out-of-bounds indexing, `usize` underflow in debug builds,
out-of-range slicing, and explicit `panic!` calls) as `Except`/`Option`
results carrying an `RtPanic` tag naming the panic source.
-/

/-- Kinds of Rust panics the source can hit: out-of-bounds indexing
(`buffer[i]`), debug-mode `usize` subtraction underflow, out-of-range
slicing (`&v[a..b]` with `b > v.len()`), and an explicit panic or todo
macro invocation. -/
inductive RtPanic where
  | indexOOB
  | usizeUnderflow
  | sliceOOB
  | explicitPanic
deriving DecidableEq

/-- Embedding of `pstring_to_string` (mod.rs lines 45-52): the first byte
is the length `len`, the string is the next `len` bytes (pushed one by one
as chars; we keep them as raw bytes).  The Rust indexing `pstring[i]` for
`i` in `1..=len` panics when `len` exceeds the available bytes, and
`pstring[0]` panics on an empty slice; those cases yield `none`. -/
def pstring_to_string (pstring : List Nat) : Option (List Nat) :=
  match pstring with
  | [] => none
  | len :: rest => if len ≤ rest.length then some (rest.take len) else none

/-- Decimal rendering of a natural number zero-padded to width `w`,
modelling Rust format specifiers such as pad4 and pad2 used in
`pdate_to_string` (the width is a minimum: wider numbers print fully). -/
def zero_pad (w : Nat) (n : Nat) : String :=
  String.mk (List.replicate (w - (toString n).length) (Char.ofNat 48)) ++ toString n

/-- Embedding of `pdate_to_string` (mod.rs lines 54-65): extract
year = bits 15-9, day = bits 8-4, month = bits 3-0 of the packed date,
add 2000 to the year when the raw year field is below 70 and 1900
otherwise, and format as a zero-padded YYYY-MM-DD string with no
calendar validation. -/
def pdate_to_string (pdate : Nat) : String :=
  let year0 := (pdate &&& 0xfe00) >>> 9
  let day := (pdate &&& 0x01f0) >>> 4
  let month := pdate &&& 0x0F
  let year := if year0 < 70 then year0 + 2000 else year0 + 1900
  zero_pad 4 year ++ "-" ++ zero_pad 2 month ++ "-" ++ zero_pad 2 day

/-- Loop body of `text_from_blocks` (mod.rs lines 70-89), iterating over
the byte suffix the Rust loop `for i in 1025..buffer.len()` visits, with
the `skip_next` flag as the boolean argument.  CR (0x0D) becomes LF
(0x0A); on an indent marker (0x10) the following count byte `n` is read
(`buffer[i+1]`, an out-of-bounds panic when the marker is the last byte)
and `n - 32` spaces are emitted (`usize` subtraction: a debug-build
underflow panic when `n < 32`); NULs are dropped; other bytes pass
through verbatim. -/
def text_loop : List Nat → Bool → Except RtPanic (List Nat)
  | [], _ => .ok []
  | _ :: rest, true => text_loop rest false
  | b :: rest, false =>
    if b = 0x0d then
      match text_loop rest false with
      | .error p => .error p
      | .ok r => .ok (0x0a :: r)
    else if b = 0x10 then
      match rest with
      | [] => .error .indexOOB
      | n :: _ =>
        if n < 32 then .error .usizeUnderflow
        else
          match text_loop rest true with
          | .error p => .error p
          | .ok r => .ok (List.replicate (n - 32) 0x20 ++ r)
    else if b = 0 then text_loop rest false
    else
      match text_loop rest false with
      | .error p => .error p
      | .ok r => .ok (b :: r)

/-- Embedding of `text_from_blocks` (mod.rs lines 67-91): the scan starts
at offset 1025 of the slice, so it processes exactly `buffer.drop 1025`
and never examines offsets 0 through 1024. -/
def text_from_blocks (buffer : List Nat) : Except RtPanic (List Nat) :=
  text_loop (buffer.drop 1025) false

/-- The fixed Apple II sector interleaving table of `read_buffer`
(mod.rs lines 125-128). -/
def sector_map : List Nat := [0, 14, 13, 12, 11, 10, 9, 8, 7, 6, 5, 4, 3, 2, 1, 15]

/-- Loop nest of `read_buffer` (mod.rs lines 129-145): for each track and
each logical sector in ascending order, push the 256 bytes of the
physical sector `sector_map[sector]` of that track.  `contents.getD _ 0`
embeds the Rust indexing `contents[source_sector_offset + byte]`; for the
track count computed here every index is in range (see the proofs
below). -/
def deinterleave (contents : List Nat) : List Nat :=
  (List.range (contents.length / 256 / 16)).flatMap (fun track =>
    (List.range 16).flatMap (fun sector =>
      (List.range 256).map (fun byte =>
        contents.getD (sector_map.getD sector 0 * 256 + track * 16 * 256 + byte) 0)))

/-- Embedding of `AppleDisk::read_buffer` (mod.rs lines 121-149, the same
code appears as `fill_buffer` in main.rs lines 75-103): deinterleave the
raw image, then `assert!(contents.len() == buffer.len())`; a failed
assert is a panic, modelled as `none`. -/
def read_buffer (contents : List Nat) : Option (List Nat) :=
  let buffer := deinterleave contents
  if contents.length = buffer.length then some buffer else none

/-- Index map underlying the deinterleaver, used in the proofs below:
output position `k` (track `k / 4096`, logical sector `k % 4096 / 256`,
byte `k % 256`) is read from this input position.  Because the sector
table is an involution on `[0, 16)`, this map is an involution on whole
images. -/
def interleave_index (k : Nat) : Nat :=
  sector_map.getD (k % 4096 / 256) 0 * 256 + k / 4096 * 16 * 256 + k % 256

/-- Field-for-field image of the Rust `VolumeInfo` struct (mod.rs
lines 20-32). -/
structure VolumeInfo where
  first_system_block : Nat
  first_block_after_directory : Nat
  file_type : Nat
  volume_name : List Nat
  num_blocks : Nat
  num_files : Nat
  last_access_time : Nat
  date : Nat
  reserved : List Nat
deriving DecidableEq

/-- Field-for-field image of the Rust `DirectoryEntry` struct (mod.rs
lines 34-43). -/
structure DirectoryEntry where
  first_block : Nat
  first_after_block : Nat
  file_type : Nat
  name : List Nat
  bytes_in_last_block : Nat
  date : Nat
deriving DecidableEq

/-- Image of the Rust `Directory` struct (mod.rs lines 5-10): a volume
header followed by a fixed table of 77 entries. -/
structure Directory where
  volume : VolumeInfo
  entries : List DirectoryEntry
deriving DecidableEq

/-- Little-endian 16-bit read at byte offset `off`, as the `repr(C)`
unaligned struct read performs on the source platform.  Offsets past the
end of the available bytes yield 0 (the concrete stand-in for whatever
adjacent memory the out-of-bounds read would return). -/
def read_u16 (bytes : List Nat) (off : Nat) : Nat :=
  bytes.getD off 0 + 256 * bytes.getD (off + 1) 0

/-- Raw byte-array field read of `n` bytes at offset `off`. -/
def read_bytes (bytes : List Nat) (off n : Nat) : List Nat :=
  (List.range n).map (fun i => bytes.getD (off + i) 0)

/-- Decoding of one 26-byte `DirectoryEntry` record at byte offset `off`,
per the `repr(C)` layout: u16 first_block / first_after_block /
file_type, a 16-byte name, u16 bytes_in_last_block / date. -/
def parse_entry (bytes : List Nat) (off : Nat) : DirectoryEntry :=
  { first_block := read_u16 bytes off
    first_after_block := read_u16 bytes (off + 2)
    file_type := read_u16 bytes (off + 4)
    name := read_bytes bytes (off + 6) 16
    bytes_in_last_block := read_u16 bytes (off + 22)
    date := read_u16 bytes (off + 24) }

/-- Decoding of the 24-byte `VolumeInfo` header at offset 0. -/
def parse_volume (bytes : List Nat) : VolumeInfo :=
  { first_system_block := read_u16 bytes 0
    first_block_after_directory := read_u16 bytes 2
    file_type := read_u16 bytes 4
    volume_name := read_bytes bytes 6 8
    num_blocks := read_u16 bytes 14
    num_files := read_u16 bytes 16
    last_access_time := read_u16 bytes 18
    date := read_u16 bytes 20
    reserved := read_bytes bytes 22 4 }

/-- Embedding of `Directory::new` (mod.rs lines 12-18): an unaligned
`repr(C)` read of the whole `Directory` struct - the 26-byte `VolumeInfo`
header (its `reserved` field ends at offset 26) followed by 77 entries
of 26 bytes each at offsets `26 + 26 * i`, 2028 bytes in all - starting
at the first byte of `bytes`.  The source performs this read regardless
of how many bytes its argument slice actually holds, so this definition
likewise decodes offsets up to 2027 from whatever `bytes` contains. -/
def directory_new (bytes : List Nat) : Directory :=
  { volume := parse_volume bytes
    entries := (List.range 77).map (fun i => parse_entry bytes (26 + 26 * i)) }

/-- The in-memory disk session of `AppleDisk` (mod.rs lines 93-97),
without the image-name string. -/
structure AppleDisk where
  blocks : List Nat
  directory : Directory
deriving DecidableEq

/-- Embedding of `AppleDisk::new` (mod.rs lines 110-119): deinterleave
the raw image, then build the directory from `&buffer[1024..2560]`.
Forming that slice panics when the buffer is shorter than 2560 bytes
(`none`).  Because the unaligned struct read of `Directory::new` covers
2028 bytes - 492 bytes more than the 1536-byte slice - the bytes it
actually consumes are `buffer` bytes 1024..3051, which is why the whole
suffix `buffer.drop 1024` is passed on here. -/
def apple_disk_new (contents : List Nat) : Option AppleDisk :=
  match read_buffer contents with
  | none => none
  | some buffer =>
    if 2560 ≤ buffer.length then
      some { blocks := buffer, directory := directory_new (buffer.drop 1024) }
    else none

/-- Embedding of `AppleDisk::read_blocks` (mod.rs lines 100-104): the
byte slice `&blocks[index*512 .. (index+count)*512]`; slicing past the
end of the buffer panics (`none`). -/
def read_blocks (blocks : List Nat) (index count : Nat) : Option (List Nat) :=
  if (index + count) * 512 ≤ blocks.length then
    some ((blocks.drop (index * 512)).take ((index + count) * 512 - index * 512))
  else none

/-- Caller-visible outcome of `AppleDisk::transfer`: a file written with
the given bytes, the silent fall-through return when no directory entry
matches (no write, no error), or a panic. -/
inductive TransferOutcome where
  | wrote (bytes : List Nat)
  | silent
  | panicked (p : RtPanic)
deriving DecidableEq

/-- Body of the matched-entry arm of `AppleDisk::transfer` (mod.rs
lines 187-197): slice blocks `first_block ..< first_after_block` (the
`usize` subtraction underflows in a debug build when the entry is
inverted) and write them, routed through `text_from_blocks` when the
text flag is set. -/
def extract_entry (blocks : List Nat) (e : DirectoryEntry) (is_text : Bool) : TransferOutcome :=
  if e.first_after_block < e.first_block then .panicked .usizeUnderflow
  else
    match read_blocks blocks e.first_block (e.first_after_block - e.first_block) with
    | none => .panicked .sliceOOB
    | some file_buffer =>
      if is_text then
        match text_from_blocks file_buffer with
        | .error p => .panicked p
        | .ok text_buffer => .wrote text_buffer
      else .wrote file_buffer

/-- Entry scan of `AppleDisk::transfer` (mod.rs lines 184-199): iterate
over the whole `entries` table in order, decode each name, and extract
the first entry whose decoded name equals the requested name; fall
through silently when none matches.  A name whose length byte exceeds
the 15 available bytes makes `pstring_to_string` panic. -/
def transfer_loop (blocks : List Nat) (name : List Nat) (is_text : Bool) :
    List DirectoryEntry → TransferOutcome
  | [] => .silent
  | e :: rest =>
    match pstring_to_string e.name with
    | none => .panicked .indexOOB
    | some entry_name =>
      if entry_name = name then extract_entry blocks e is_text
      else transfer_loop blocks name is_text rest

/-- Embedding of `AppleDisk::transfer` (mod.rs lines 178-201).  The
`to_image` branch is the unimplemented `todo!` stub, a panic. -/
def transfer (d : AppleDisk) (name : List Nat) (to_image is_text : Bool) : TransferOutcome :=
  if to_image then .panicked .explicitPanic
  else transfer_loop d.blocks name is_text d.directory.entries

/-- Embedding of `AppleDisk::num_blocks` (mod.rs lines 106-108). -/
def num_blocks (blocks : List Nat) : Nat := blocks.length / 512

/-- Block loop of `AppleDisk::dump` (mod.rs lines 228-248) over
`count` blocks starting at `start`: each iteration slices one block
(an out-of-range slice panics mid-loop, after the output of the earlier
blocks has already been printed) and renders it.  The rendering of a
block (32 hex/ASCII lines, reading only the block's own 512 bytes) is
abstracted to the block's byte list; the first component collects the
blocks printed before any panic. -/
def dump_loop (blocks : List Nat) (start : Nat) :
    Nat → List (List Nat) × Option RtPanic
  | 0 => ([], none)
  | n + 1 =>
    match read_blocks blocks start 1 with
    | none => ([], some .sliceOOB)
    | some blk =>
      match dump_loop blocks (start + 1) n with
      | (out, p) => (blk :: out, p)

/-- Embedding of `AppleDisk::dump` (mod.rs lines 216-249): three
validation checks, each an explicit `panic!` producing no output, then
the inclusive block loop `from..=to`. -/
def dump (blocks : List Nat) (fromBlk toBlk : Nat) : List (List Nat) × Option RtPanic :=
  if fromBlk > toBlk then ([], some .explicitPanic)
  else if toBlk > num_blocks blocks then ([], some .explicitPanic)
  else if fromBlk > num_blocks blocks then ([], some .explicitPanic)
  else dump_loop blocks fromBlk (toBlk + 1 - fromBlk)

/-- Spec-side reference function for the text detokenizer, written from
the words of the specification (section 4.4) for refinement comparison
with `text_loop`: for each byte in input order, a carriage return 0x0D
emits one line feed 0x0A; an indent marker 0x10 consumes the following
count byte `n` and emits `n - 32` spaces; a NUL emits nothing; any other
byte is emitted verbatim. -/
def detok_spec : List Nat → List Nat
  | [] => []
  | 0x0d :: rest => 0x0a :: detok_spec rest
  | 0x10 :: [] => []
  | 0x10 :: n :: rest2 => List.replicate (n - 32) 0x20 ++ detok_spec rest2
  | 0 :: rest => detok_spec rest
  | b :: rest => b :: detok_spec rest

/-- Well-formedness of a text payload: every indent marker 0x10 is
followed, inside the slice, by a count byte of value at least 32. -/
def good_text (s : List Nat) : Prop :=
  ∀ k, k < s.length → s.getD k 0 = 0x10 → k + 1 < s.length ∧ 32 ≤ s.getD (k + 1) 0

/-- An all-zero 26-byte directory entry, used as the content of unused
directory slots and as the default of list lookups in statements. -/
def blank_entry : DirectoryEntry :=
  { first_block := 0, first_after_block := 0, file_type := 0,
    name := List.replicate 16 0, bytes_in_last_block := 0, date := 0 }

/-- A plausible volume header with a given file count, for building
concrete test directories. -/
def test_volume (nfiles : Nat) : VolumeInfo :=
  { first_system_block := 0, first_block_after_directory := 6, file_type := 0,
    volume_name := [4, 84, 69, 83, 84, 0, 0, 0], num_blocks := 280,
    num_files := nfiles, last_access_time := 0, date := 0, reserved := [0, 0, 0, 0] }

/-- A directory entry named "A" (length byte 1, byte 65) spanning the
empty block range [0, 0). -/
def entry_a : DirectoryEntry :=
  { first_block := 0, first_after_block := 0, file_type := 0,
    name := 1 :: 65 :: List.replicate 14 0, bytes_in_last_block := 0, date := 0 }

/-- A disk whose volume header declares zero files while slot 0 of the
77-entry table nevertheless holds the entry named "A". -/
def c3_disk : AppleDisk :=
  { blocks := [],
    directory := { volume := test_volume 0,
                   entries := entry_a :: List.replicate 76 blank_entry } }

/-- A disk with one valid file named "A", used for looking up a name
that is not present anywhere in the table. -/
def c6_disk : AppleDisk :=
  { blocks := [],
    directory := { volume := test_volume 1,
                   entries := entry_a :: List.replicate 76 blank_entry } }

/-- Byte window for the directory-construction bounds analysis: 2028
zero bytes, the full span of the decoded `Directory` struct. -/
def c7_bytes_a : List Nat := List.replicate 2028 0

/-- Byte window agreeing with `c7_bytes_a` on the first 1536 bytes (the
extent of the `&buffer[1024..2560]` slice handed to `Directory::new`)
but differing at offset 1536, the first byte past that slice. -/
def c7_bytes_b : List Nat := List.replicate 1536 0 ++ [1]

/-- A directory entry named "HELLO" spanning blocks 10 to 12 (exclusive
end), mirroring the extraction example of the specification. -/
def hello_entry : DirectoryEntry :=
  { first_block := 10, first_after_block := 12, file_type := 5,
    name := [5, 72, 69, 76, 76, 79] ++ List.replicate 10 0,
    bytes_in_last_block := 512, date := 0 }

/-- A 12-block disk (6144 bytes, every byte 3) whose directory holds the
single entry named "HELLO". -/
def c4_disk : AppleDisk :=
  { blocks := List.replicate 6144 3,
    directory := { volume := test_volume 1, entries := [hello_entry] } }

/-- Element lookup in a replicated list: inside the replicated range the
element is returned, outside it the default. -/
theorem getD_replicate_eval {α : Type} (n i : Nat) (a d : α) :
    (List.replicate n a).getD i d = if i < n then a else d := by
  induction n generalizing i with
  | zero => simp [List.getD]
  | succ n ih =>
    cases i with
    | zero => simp [List.replicate_succ]
    | succ i => simpa [List.replicate_succ, Nat.succ_lt_succ_iff] using ih i

/-- Element lookup in a mapped range: position `i < n` holds `f i`. -/
theorem map_range_getD {α : Type} (f : Nat → α) (n i : Nat) (d : α) (h : i < n) :
    ((List.range n).map f).getD i d = f i := by
  rw [List.getD_eq_getElem?_getD, List.getElem?_map, List.getElem?_range h]
  rfl

/-- Unfolding lemma for the entry table produced by `directory_new`. -/
theorem directory_new_entries (bytes : List Nat) :
    (directory_new bytes).entries =
      (List.range 77).map (fun i => parse_entry bytes (26 + 26 * i)) := rfl

/-- Dropping the fixed 1025-byte prefix of the text scan: on a buffer
built as 1025 filler bytes followed by a payload, `text_from_blocks`
runs the scan loop on exactly the payload. -/
theorem text_from_blocks_skip (a : Nat) (l : List Nat) :
    text_from_blocks (List.replicate 1025 a ++ l) = text_loop l false := by
  unfold text_from_blocks
  rw [List.drop_left' (List.length_replicate 1025 a)]

/-- Bit-extraction helper: masking with a block of `m` one bits shifted
up by `k` and then shifting down by `k` is the same as shifting down
and reducing modulo `2 ^ m`. -/
theorem land_shiftLeft_shiftRight (p k m : Nat) :
    (p &&& ((2 ^ m - 1) <<< k)) >>> k = (p >>> k) % 2 ^ m := by
  apply Nat.eq_of_testBit_eq
  intro i
  rw [Nat.testBit_shiftRight, Nat.testBit_and, Nat.testBit_shiftLeft,
    Nat.testBit_mod_two_pow, Nat.testBit_shiftRight]
  simp [Nat.testBit_two_pow_sub_one, Nat.le_add_right, Bool.and_comm]

/-- Claim C5: for every 16-bit packed date value, `pdate_to_string`
extracts the year from bits 15-9, the day from bits 8-4 and the month
from bits 3-0, adds 2000 to the year when the raw year field is below 70
and 1900 otherwise, and formats the three fields literally (no calendar
validation); in particular raw year 69 gives 2069, raw year 70 gives
1970, and the all-zero value gives 2000-00-00. -/
theorem c5_pdate_decoding :
    (∀ p, p < 65536 →
        pdate_to_string p =
          zero_pad 4 ((p / 512) % 128 + (if (p / 512) % 128 < 70 then 2000 else 1900)) ++ "-" ++
          zero_pad 2 (p % 16) ++ "-" ++ zero_pad 2 ((p / 16) % 32)) ∧
    pdate_to_string (69 * 512) = "2069-00-00" ∧
    pdate_to_string (70 * 512) = "1970-00-00" ∧
    pdate_to_string 0 = "2000-00-00" := by
  refine ⟨?_, by decide, by decide, by decide⟩
  intro p _
  have hy : (p &&& 0xfe00) >>> 9 = (p / 512) % 128 := by
    have h : (0xfe00 : Nat) = (2 ^ 7 - 1) <<< 9 := by decide
    rw [h, land_shiftLeft_shiftRight, Nat.shiftRight_eq_div_pow]
    norm_num
  have hd : (p &&& 0x01f0) >>> 4 = (p / 16) % 32 := by
    have h : (0x01f0 : Nat) = (2 ^ 5 - 1) <<< 4 := by decide
    rw [h, land_shiftLeft_shiftRight, Nat.shiftRight_eq_div_pow]
    norm_num
  have hm : p &&& 0x0F = p % 16 := by
    have h : (0x0F : Nat) = 2 ^ 4 - 1 := by decide
    rw [h, Nat.and_pow_two_sub_one_eq_mod]
  unfold pdate_to_string
  simp only [hy, hd, hm]
  split_ifs <;> rfl

/-- Witness for C5: the general component equation instantiated at the
concrete packed date 35443 (raw year 69, day 7, month 3). -/
theorem c5_pdate_decoding_witness :
    (35443 : Nat) < 65536 ∧
    pdate_to_string 35443 =
      zero_pad 4 ((35443 / 512) % 128 + (if (35443 / 512) % 128 < 70 then 2000 else 1900)) ++ "-" ++
      zero_pad 2 (35443 % 16) ++ "-" ++ zero_pad 2 ((35443 / 16) % 32) :=
  ⟨by decide, c5_pdate_decoding.1 35443 (by decide)⟩

/-- Claim C8 (code behavior at the failing input): on an input slice
whose last byte, at offset 1025, is the indent marker 0x10 with no
following count byte, `text_from_blocks` hits the out-of-bounds read
`buffer[i+1]` - a Rust panic that aborts the process, not a reportable
decoding error. -/
theorem c8_trailing_marker_is_index_panic :
    text_from_blocks (List.replicate 1025 0 ++ [0x10]) = .error RtPanic.indexOOB := by
  rw [text_from_blocks_skip]
  rfl

/-- Claim C10: an indent marker at offset 1025 whose count byte is 5
(below 32) drives the `usize` subtraction `n - 32` into underflow, so
the function fails (debug-build underflow panic) instead of emitting
zero spaces or reporting a decoding error. -/
theorem c10_low_count_byte_underflows :
    (List.replicate 1025 0 ++ [0x10, 5]).getD 1025 0 = 0x10 ∧
    (List.replicate 1025 0 ++ [0x10, 5]).getD 1026 0 < 32 ∧
    text_from_blocks (List.replicate 1025 0 ++ [0x10, 5]) = .error RtPanic.usizeUnderflow := by
  refine ⟨?_, ?_, ?_⟩
  · rw [List.getD_append_right _ _ _ _ (by rw [List.length_replicate]),
      List.length_replicate]
    norm_num
  · rw [List.getD_append_right _ _ _ _ (by rw [List.length_replicate]; omega),
      List.length_replicate]
    norm_num
  · rw [text_from_blocks_skip]
    rfl

/-- Claim C6 (code behavior at the failing input): looking up a name
absent from every slot of the directory makes `transfer` fall through
and return silently - nothing is written and no error is signalled, an
outcome indistinguishable from success at the call site, where the claim
requires a distinguishable not-found result. -/
theorem c6_missing_name_is_silent :
    (∀ e ∈ c6_disk.directory.entries, pstring_to_string e.name ≠ some [66]) ∧
    transfer c6_disk [66] false false = .silent := by
  decide

/-- Counterexample to claim C3 as stated: on a disk whose header declares
`num_files = 0`, so that the name "A" occurs only in a trailing slot at
index ≥ file_count, `transfer` nevertheless finds and surfaces the entry
(the scan covers all 77 slots, not just the first `file_count`). -/
theorem c3_counterexample_trailing_slot_surfaced :
    (∀ i, i < c3_disk.directory.volume.num_files →
        pstring_to_string ((c3_disk.directory.entries.getD i blank_entry).name) ≠ some [65]) ∧
    transfer c3_disk [65] false false = .wrote [] := by
  decide

/-- Claim C7 (code behavior at the failing input): the directory window
is 2560 - 1024 = 1536 bytes while the decoded struct spans
26 + 77 * 26 = 2028 bytes, and `Directory::new` does depend on bytes
past the window: two buffers that agree on all 1536 window bytes but
differ one byte beyond it decode to different directories (entry 58
starts at window offset 1534, so its first_after_block field straddles
the window edge), instead of construction failing with a
truncated-directory error. -/
theorem c7_directory_new_reads_past_window :
    c7_bytes_a.take 1536 = c7_bytes_b.take 1536 ∧
    2560 - 1024 < 26 + 77 * 26 ∧
    (directory_new c7_bytes_a).entries.getD 58 blank_entry ≠
      (directory_new c7_bytes_b).entries.getD 58 blank_entry := by
  have hwina : c7_bytes_a.take 1536 = List.replicate 1536 0 := by
    rw [c7_bytes_a, List.take_replicate, show min 1536 2028 = 1536 by omega]
  have hwinb : c7_bytes_b.take 1536 = List.replicate 1536 0 := by
    rw [c7_bytes_b, List.take_left' (List.length_replicate 1536 0)]
  have ha : (directory_new c7_bytes_a).entries.getD 58 blank_entry =
      parse_entry c7_bytes_a (26 + 26 * 58) := by
    rw [directory_new_entries]
    exact map_range_getD _ 77 58 _ (by norm_num)
  have hb : (directory_new c7_bytes_b).entries.getD 58 blank_entry =
      parse_entry c7_bytes_b (26 + 26 * 58) := by
    rw [directory_new_entries]
    exact map_range_getD _ 77 58 _ (by norm_num)
  have hfa : (parse_entry c7_bytes_a (26 + 26 * 58)).first_after_block = 0 := by
    show read_u16 c7_bytes_a (26 + 26 * 58 + 2) = 0
    unfold read_u16
    rw [c7_bytes_a, getD_replicate_eval, getD_replicate_eval]
    decide
  have hfb : (parse_entry c7_bytes_b (26 + 26 * 58)).first_after_block = 1 := by
    show read_u16 c7_bytes_b (26 + 26 * 58 + 2) = 1
    unfold read_u16
    rw [c7_bytes_b,
      List.getD_append_right _ _ _ _ (by rw [List.length_replicate]),
      List.getD_append_right _ _ _ _ (by rw [List.length_replicate]; omega),
      List.length_replicate]
    decide
  refine ⟨hwina.trans hwinb.symm, by norm_num, ?_⟩
  rw [ha, hb]
  intro h
  have hft := congrArg DirectoryEntry.first_after_block h
  rw [hfa, hfb] at hft
  exact absurd hft (by norm_num)

/-- Claim C9 (amended): for every block store and every diagnostic
block-range read with `from > to` or an endpoint strictly greater than
the block count, `dump` produces no output and stops at an explicit
`panic!` - the validation is reported by terminating the process, not by
a recoverable validation error. -/
theorem c9_invalid_range_panics (blocks : List Nat) (fromBlk toBlk : Nat)
    (h : fromBlk > toBlk ∨ toBlk > num_blocks blocks ∨ fromBlk > num_blocks blocks) :
    dump blocks fromBlk toBlk = ([], some .explicitPanic) := by
  unfold dump
  split_ifs with h1 h2 h3
  · rfl
  · rfl
  · rfl
  · exact ((by omega : False)).elim

/-- Witness for the amended C9 at the concrete inverted range (5, 3)
over an empty block store. -/
theorem c9_invalid_range_panics_witness :
    ((5 : Nat) > 3 ∨ (3 : Nat) > num_blocks [] ∨ (5 : Nat) > num_blocks []) ∧
    dump [] 5 3 = ([], some .explicitPanic) :=
  ⟨Or.inl (by decide), c9_invalid_range_panics [] 5 3 (Or.inl (by decide))⟩

/-- Counterexample to claim C9 as stated: the inverted range (5, 3) on a
4-block store ends in an explicit `panic!` (process termination), not a
recoverable validation report; and the range (0, 4) with its upper
endpoint equal to the block count passes all three validation checks,
dumps four blocks of output, and only then panics on the out-of-range
slice - so the failure is neither a validation error nor reported
before output. -/
theorem c9_counterexample_panic_and_late_failure :
    dump (List.replicate 2048 0) 5 3 = ([], some RtPanic.explicitPanic) ∧
    (dump (List.replicate 2048 0) 0 4).1 ≠ [] ∧
    (dump (List.replicate 2048 0) 0 4).2 = some RtPanic.sliceOOB := by
  have hnb : num_blocks (List.replicate 2048 0) = 4 := by
    unfold num_blocks
    rw [List.length_replicate]
  have hrb : ∀ b, b < 4 →
      read_blocks (List.replicate 2048 (0 : Nat)) b 1 = some (List.replicate 512 0) := by
    intro b hb
    unfold read_blocks
    rw [List.length_replicate, if_pos (by omega), List.drop_replicate, List.take_replicate]
    have hmin : min ((b + 1) * 512 - b * 512) (2048 - b * 512) = 512 := by omega
    rw [hmin]
  have hrb4 : read_blocks (List.replicate 2048 (0 : Nat)) 4 1 = none := by
    unfold read_blocks
    rw [List.length_replicate, if_neg (by omega)]
  have hloop5 : dump_loop (List.replicate 2048 (0 : Nat)) 0 5 =
      ([List.replicate 512 0, List.replicate 512 0, List.replicate 512 0,
        List.replicate 512 0], some RtPanic.sliceOOB) := by
    simp only [dump_loop, hrb 0 (by omega), hrb 1 (by omega), hrb 2 (by omega),
      hrb 3 (by omega), hrb4, Nat.reduceAdd, Nat.zero_add]
  have hloop : dump (List.replicate 2048 0) 0 4 =
      ([List.replicate 512 0, List.replicate 512 0, List.replicate 512 0,
        List.replicate 512 0], some RtPanic.sliceOOB) := by
    unfold dump
    rw [hnb, if_neg (by omega), if_neg (by omega), if_neg (by omega),
      show (4 + 1 - 0 : Nat) = 5 by norm_num, hloop5]
  refine ⟨?_, ?_, ?_⟩
  · unfold dump
    rw [if_pos (by omega)]
  · rw [hloop]
    exact List.cons_ne_nil _ _
  · rw [hloop]

/-- Well-formedness of a text payload is preserved by dropping its head
byte. -/
theorem good_text_tail {b : Nat} {rest : List Nat} (h : good_text (b :: rest)) :
    good_text rest := by
  intro k hk h16
  have hres := h (k + 1) (by simpa using Nat.succ_lt_succ hk)
    (by simpa [List.getD_cons_succ] using h16)
  obtain ⟨h1, h2⟩ := hres
  exact ⟨by simpa using h1, by simpa [List.getD_cons_succ] using h2⟩

/-- Refinement core for the detokenizer: on any payload whose indent
markers are all well formed, the source's scan loop succeeds and agrees
with the spec-side reference function. -/
theorem text_loop_ok (n : Nat) : ∀ s : List Nat, s.length ≤ n → good_text s →
    text_loop s false = .ok (detok_spec s) := by
  induction n with
  | zero =>
    intro s hl _
    have hs : s = [] := List.eq_nil_of_length_eq_zero (Nat.le_zero.mp hl)
    subst hs
    rfl
  | succ n ih =>
    intro s hl hg
    match s with
    | [] => rfl
    | b :: rest =>
      by_cases hb13 : b = 13
      · subst hb13
        have hih := ih rest (by simp only [List.length_cons] at hl; omega) (good_text_tail hg)
        simp [text_loop, detok_spec, hih]
      · by_cases hb16 : b = 16
        · subst hb16
          obtain ⟨h1, h2⟩ := hg 0 (by simp) (by simp)
          match rest with
          | [] => simp at h1
          | n1 :: rest2 =>
            have hn1 : ¬ n1 < 32 := by
              simp only [List.getD_cons_succ, List.getD_cons_zero] at h2
              omega
            have hih := ih rest2 (by simp only [List.length_cons] at hl; omega)
              (good_text_tail (good_text_tail hg))
            simp [text_loop, detok_spec, hih, hn1]
        · by_cases hb0 : b = 0
          · subst hb0
            have hih := ih rest (by simp only [List.length_cons] at hl; omega)
              (good_text_tail hg)
            simp [text_loop, detok_spec, hih]
          · have hih := ih rest (by simp only [List.length_cons] at hl; omega)
              (good_text_tail hg)
            simp [text_loop, detok_spec, hih, hb13, hb16, hb0]

/-- Claim C2 (amended): for every input slice in which every indent
marker 0x10 at or after offset 1025 is followed, inside the slice, by a
count byte of value at least 32, the detokenizer succeeds and emits, in
input order, exactly what the specification's per-byte case list
(`detok_spec`) prescribes for the bytes from offset 1025 on - offsets 0
through 1024 are never examined. -/
theorem c2_detokenizer_matches_spec (buffer : List Nat)
    (h : good_text (buffer.drop 1025)) :
    text_from_blocks buffer = .ok (detok_spec (buffer.drop 1025)) := by
  unfold text_from_blocks
  exact text_loop_ok (buffer.drop 1025).length _ le_rfl h

/-- Witness for the amended C2: a concrete buffer whose payload after
offset 1025 holds a letter, a carriage return, a well-formed indent
marker with count byte 37, a NUL and another letter. -/
theorem c2_detokenizer_matches_spec_witness :
    good_text ((List.replicate 1025 9 ++ [65, 13, 16, 37, 0, 66]).drop 1025) ∧
    text_from_blocks (List.replicate 1025 9 ++ [65, 13, 16, 37, 0, 66]) =
      .ok (detok_spec ((List.replicate 1025 9 ++ [65, 13, 16, 37, 0, 66]).drop 1025)) := by
  have hdrop : (List.replicate 1025 9 ++ [65, 13, 16, 37, 0, 66]).drop 1025 =
      [65, 13, 16, 37, 0, 66] := List.drop_left' (List.length_replicate _ _)
  constructor
  · rw [hdrop]
    unfold good_text
    decide
  · exact c2_detokenizer_matches_spec _ (by rw [hdrop]; unfold good_text; decide)

/-- Counterexample to claim C2 as stated: the buffer whose payload is
the indent marker 0x10 followed by count byte 0 satisfies the claim's
hypothesis (every marker is followed by a count byte), yet the code does
not emit the prescribed `0 - 32` (that is, zero) spaces: the `usize`
subtraction underflows and the function fails. -/
theorem c2_counterexample_low_count_byte :
    (∀ k, k < ((List.replicate 1025 0 ++ [16, 0]).drop 1025).length →
        ((List.replicate 1025 0 ++ [16, 0]).drop 1025).getD k 0 = 16 →
        k + 1 < ((List.replicate 1025 0 ++ [16, 0]).drop 1025).length) ∧
    text_from_blocks (List.replicate 1025 0 ++ [16, 0]) ≠
      .ok (detok_spec ((List.replicate 1025 0 ++ [16, 0]).drop 1025)) ∧
    text_from_blocks (List.replicate 1025 0 ++ [16, 0]) = .error RtPanic.usizeUnderflow := by
  have hdrop : (List.replicate 1025 0 ++ [16, 0]).drop 1025 = [16, 0] :=
    List.drop_left' (List.length_replicate _ _)
  refine ⟨?_, ?_, ?_⟩
  · rw [hdrop]
    decide
  · rw [text_from_blocks_skip, hdrop]
    exact fun hcontra => Except.noConfusion hcontra
  · rw [text_from_blocks_skip]
    rfl

/-- Early-return loop as a first-match search: when every entry name in
the table decodes without panicking, the entry scan of `transfer` equals
a `find?` over the whole table (first entry whose decoded name is
byte-for-byte equal to the requested name), extracting on a hit and
falling through silently otherwise. -/
theorem transfer_loop_eq_find (blocks : List Nat) (name : List Nat) (it : Bool) :
    ∀ es : List DirectoryEntry, (∀ x ∈ es, (pstring_to_string x.name).isSome) →
      transfer_loop blocks name it es =
        match es.find? (fun x => decide (pstring_to_string x.name = some name)) with
        | some e => extract_entry blocks e it
        | none => .silent := by
  intro es
  induction es with
  | nil => intro _; rfl
  | cons e rest ih =>
    intro h
    have he := h e (List.mem_cons_self e rest)
    obtain ⟨en, hen⟩ := Option.isSome_iff_exists.mp he
    have hrest : ∀ x ∈ rest, (pstring_to_string x.name).isSome :=
      fun x hx => h x (List.mem_cons_of_mem e hx)
    by_cases heq : en = name
    · subst heq
      simp [transfer_loop, List.find?_cons, hen]
    · rw [show transfer_loop blocks name it (e :: rest) = transfer_loop blocks name it rest by
        simp [transfer_loop, hen, heq]]
      rw [ih hrest]
      have hpe : (fun x => decide (pstring_to_string x.name = some name)) e = false := by
        simp [hen, heq]
      simp [List.find?_cons, hpe]

/-- Claim C3 (amended): the name lookup of `transfer` linearly scans the
whole 77-slot entry table in order - including the unused slots at index
at or above `file_count` - compares decoded names for exact equality
including case, and extracts the first match, falling through silently
when no slot at all matches; an entry whose name occurs only at index at
or above `file_count` is therefore surfaced all the same (hypothesis:
every name in the table decodes without panicking). -/
theorem c3_lookup_scans_whole_table (d : AppleDisk) (name : List Nat) (it : Bool)
    (h : ∀ x ∈ d.directory.entries, (pstring_to_string x.name).isSome) :
    transfer d name false it =
      match d.directory.entries.find?
          (fun x => decide (pstring_to_string x.name = some name)) with
      | some e => extract_entry d.blocks e it
      | none => .silent := by
  show transfer_loop d.blocks name it d.directory.entries = _
  exact transfer_loop_eq_find d.blocks name it d.directory.entries h

/-- Witness for the amended C3 on the concrete one-file disk, looking up
the name "A". -/
theorem c3_lookup_scans_whole_table_witness :
    (∀ x ∈ c6_disk.directory.entries, (pstring_to_string x.name).isSome) ∧
    transfer c6_disk [65] false false =
      match c6_disk.directory.entries.find?
          (fun x => decide (pstring_to_string x.name = some [65])) with
      | some e => extract_entry c6_disk.blocks e false
      | none => .silent :=
  ⟨by decide, c3_lookup_scans_whole_table c6_disk [65] false (by decide)⟩

/-- Claim C4: when the first entry whose decoded name matches is `e`,
with a well-ordered block range that fits the block store, raw
extraction (text flag off) writes exactly the bytes of blocks
`e.first_block` up to but excluding `e.first_after_block` - the
`(first_after_block - first_block) * 512` bytes starting at byte offset
`first_block * 512` - unchanged. -/
theorem c4_raw_extraction (d : AppleDisk) (name : List Nat) (e : DirectoryEntry)
    (hwf : ∀ x ∈ d.directory.entries, (pstring_to_string x.name).isSome)
    (hfind : d.directory.entries.find?
      (fun x => decide (pstring_to_string x.name = some name)) = some e)
    (hord : e.first_block ≤ e.first_after_block)
    (hlen : e.first_after_block * 512 ≤ d.blocks.length) :
    transfer d name false false =
      .wrote ((d.blocks.drop (e.first_block * 512)).take
        ((e.first_after_block - e.first_block) * 512)) ∧
    ((d.blocks.drop (e.first_block * 512)).take
        ((e.first_after_block - e.first_block) * 512)).length
      = (e.first_after_block - e.first_block) * 512 := by
  constructor
  · have ht : transfer d name false false = transfer_loop d.blocks name false d.directory.entries :=
      rfl
    rw [ht, transfer_loop_eq_find d.blocks name false d.directory.entries hwf, hfind]
    show extract_entry d.blocks e false = _
    unfold extract_entry
    rw [if_neg (by omega)]
    unfold read_blocks
    rw [if_pos (by omega : (e.first_block + (e.first_after_block - e.first_block)) * 512 ≤
      d.blocks.length)]
    rw [show (e.first_block + (e.first_after_block - e.first_block)) * 512 -
      e.first_block * 512 = (e.first_after_block - e.first_block) * 512 by omega]
    rfl
  · rw [List.length_take, List.length_drop]
    omega

/-- Witness for C4 on the concrete 12-block disk: extracting "HELLO"
(blocks 10 to 12, exclusive end) returns exactly the 1024 raw bytes of
blocks 10 and 11, here 1024 copies of the byte 3. -/
theorem c4_raw_extraction_witness :
    (∀ x ∈ c4_disk.directory.entries, (pstring_to_string x.name).isSome) ∧
    c4_disk.directory.entries.find?
      (fun x => decide (pstring_to_string x.name = some [72, 69, 76, 76, 79])) =
        some hello_entry ∧
    hello_entry.first_block ≤ hello_entry.first_after_block ∧
    hello_entry.first_after_block * 512 ≤ c4_disk.blocks.length ∧
    (transfer c4_disk [72, 69, 76, 76, 79] false false =
      .wrote ((c4_disk.blocks.drop (hello_entry.first_block * 512)).take
        ((hello_entry.first_after_block - hello_entry.first_block) * 512)) ∧
     ((c4_disk.blocks.drop (hello_entry.first_block * 512)).take
        ((hello_entry.first_after_block - hello_entry.first_block) * 512)).length
      = (hello_entry.first_after_block - hello_entry.first_block) * 512) ∧
    (c4_disk.blocks.drop (hello_entry.first_block * 512)).take
        ((hello_entry.first_after_block - hello_entry.first_block) * 512) =
      List.replicate 1024 3 := by
  have hlen : hello_entry.first_after_block * 512 ≤ c4_disk.blocks.length := by
    show 12 * 512 ≤ (List.replicate 6144 (3 : Nat)).length
    rw [List.length_replicate]
  refine ⟨by decide, by decide, by decide, hlen,
    c4_raw_extraction c4_disk [72, 69, 76, 76, 79] hello_entry
      (by decide) (by decide) (by decide) hlen, ?_⟩
  show ((List.replicate 6144 (3 : Nat)).drop (10 * 512)).take ((12 - 10) * 512) =
    List.replicate 1024 3
  rw [List.drop_replicate, List.take_replicate,
    show min ((12 - 10) * 512) (6144 - 10 * 512) = 1024 by omega]

/-- Within bounds, `getD` agrees with the checked element access. -/
theorem getD_eq_getElem_of_lt {α : Type} (l : List α) (i : Nat) (d : α) (h : i < l.length) :
    l.getD i d = l[i] := by
  rw [List.getD_eq_getElem?_getD, List.getElem?_eq_getElem h]
  rfl

/-- Length of a `flatMap` over `List.range` with constant block size. -/
theorem flatMap_range_length {α : Type} (g : Nat → List α) (c : Nat)
    (h : ∀ t, (g t).length = c) : ∀ n, ((List.range n).flatMap g).length = n * c := by
  intro n
  induction n with
  | zero => simp
  | succ n ih =>
    rw [List.range_succ, List.flatMap_append, List.length_append, ih]
    simp [h n, Nat.succ_mul]

/-- Element access in a `flatMap` over `List.range` with constant block
size: position `k` lives in block `k / c` at offset `k % c`. -/
theorem flatMap_range_getD {α : Type} (g : Nat → List α) (c : Nat)
    (h : ∀ t, (g t).length = c) (d : α) :
    ∀ n k, k < n * c → ((List.range n).flatMap g).getD k d = (g (k / c)).getD (k % c) d := by
  intro n
  induction n with
  | zero => intro k hk; simp at hk
  | succ n ih =>
    intro k hk
    rw [List.range_succ, List.flatMap_append]
    by_cases hlt : k < n * c
    · rw [List.getD_append _ _ _ _ (by rw [flatMap_range_length g c h]; exact hlt)]
      exact ih k hlt
    · have hge : n * c ≤ k := Nat.le_of_not_lt hlt
      have hk2 : k < n * c + c := by rw [Nat.succ_mul] at hk; exact hk
      have hc : 0 < c := by
        rcases Nat.eq_zero_or_pos c with h0 | h0
        · subst h0
          rw [Nat.mul_zero] at hk2
          omega
        · exact h0
      have hr : k - n * c < c := (tsub_lt_iff_left hge).mpr hk2
      have hksplit : k = (k - n * c) + n * c := (Nat.sub_add_cancel hge).symm
      have hkd : k / c = n := by
        conv_lhs => rw [hksplit]
        rw [Nat.add_mul_div_right _ _ hc, Nat.div_eq_of_lt hr]
        omega
      have hkm : k % c = k - n * c := by
        conv_lhs => rw [hksplit]
        rw [Nat.add_mul_mod_self_right, Nat.mod_eq_of_lt hr]
      rw [List.getD_append_right _ _ _ _ (by rw [flatMap_range_length g c h]; exact hge)]
      rw [flatMap_range_length g c h, hkd, hkm]
      simp

/-- The sector table sends indices below 16 to indices below 16. -/
theorem sector_map_lt : ∀ s, s < 16 → sector_map.getD s 0 < 16 := by decide

/-- The sector table is an involution on indices below 16. -/
theorem sector_map_invol : ∀ s, s < 16 → sector_map.getD (sector_map.getD s 0) 0 = s := by
  decide

/-- The deinterleaved buffer has exactly one byte per loop iteration:
tracks times 4096. -/
theorem deinterleave_length (contents : List Nat) :
    (deinterleave contents).length = contents.length / 256 / 16 * 4096 := by
  unfold deinterleave
  rw [flatMap_range_length _ 4096
    (fun t => flatMap_range_length _ 256
      (fun s => by rw [List.length_map, List.length_range]) 16)]

/-- Byte `k` of the deinterleaved buffer is input byte
`interleave_index k`. -/
theorem deinterleave_getD (contents : List Nat) (k : Nat)
    (hk : k < contents.length / 256 / 16 * 4096) :
    (deinterleave contents).getD k 0 = contents.getD (interleave_index k) 0 := by
  unfold deinterleave
  rw [flatMap_range_getD _ 4096
    (fun t => flatMap_range_length _ 256
      (fun s => by rw [List.length_map, List.length_range]) 16) 0 _ k hk]
  rw [flatMap_range_getD _ 256
    (fun s => by rw [List.length_map, List.length_range]) 0 16 (k % 4096) (by omega)]
  rw [map_range_getD _ 256 _ 0 (by omega)]
  unfold interleave_index
  rw [Nat.mod_mod_of_dvd k (by norm_num : (256 : Nat) ∣ 4096)]

/-- The deinterleaver index map is an involution. -/
theorem interleave_index_invol (k : Nat) :
    interleave_index (interleave_index k) = k := by
  unfold interleave_index
  have hs : k % 4096 / 256 < 16 := by omega
  have h1 : sector_map.getD (k % 4096 / 256) 0 < 16 := sector_map_lt _ hs
  have e1 : (sector_map.getD (k % 4096 / 256) 0 * 256 + k / 4096 * 16 * 256 + k % 256) % 4096
      / 256 = sector_map.getD (k % 4096 / 256) 0 := by omega
  have e2 : (sector_map.getD (k % 4096 / 256) 0 * 256 + k / 4096 * 16 * 256 + k % 256) / 4096
      = k / 4096 := by omega
  have e3 : (sector_map.getD (k % 4096 / 256) 0 * 256 + k / 4096 * 16 * 256 + k % 256) % 256
      = k % 256 := by omega
  rw [e1, e2, e3, sector_map_invol _ hs]
  omega

/-- On whole-track images the deinterleaver index map stays in range. -/
theorem interleave_index_lt (N k : Nat) (hN : 4096 ∣ N) (hk : k < N) :
    interleave_index k < N := by
  unfold interleave_index
  have hs : k % 4096 / 256 < 16 := by omega
  have h1 : sector_map.getD (k % 4096 / 256) 0 < 16 := sector_map_lt _ hs
  obtain ⟨m, rfl⟩ := hN
  omega

/-- The deinterleaver as a positional map over the output range. -/
theorem deinterleave_eq_map (contents : List Nat) :
    deinterleave contents =
      (List.range (contents.length / 256 / 16 * 4096)).map
        (fun k => contents.getD (interleave_index k) 0) := by
  apply List.ext_getElem
  · rw [deinterleave_length, List.length_map, List.length_range]
  · intro i h1 h2
    rw [← getD_eq_getElem_of_lt _ i 0 h1, ← getD_eq_getElem_of_lt _ i 0 h2]
    rw [deinterleave_getD contents i (by rwa [deinterleave_length] at h1)]
    rw [map_range_getD _ _ _ 0
      (by rw [List.length_map, List.length_range] at h2; exact h2)]

/-- Every list is the positional map of its own `getD` over its index
range. -/
theorem list_eq_map_range_getD (l : List Nat) :
    l = (List.range l.length).map (fun k => l.getD k 0) := by
  apply List.ext_getElem
  · rw [List.length_map, List.length_range]
  · intro i h1 h2
    rw [← getD_eq_getElem_of_lt _ i 0 h1, ← getD_eq_getElem_of_lt _ i 0 h2]
    rw [map_range_getD _ _ _ 0 h1]

/-- Mapping the (involutive, range-preserving) deinterleaver index map
over an index range permutes that range. -/
theorem range_map_interleave_perm (N : Nat) (hN : 4096 ∣ N) :
    ((List.range N).map interleave_index).Perm (List.range N) := by
  apply List.perm_of_nodup_nodup_toFinset_eq
  · refine List.Nodup.map_on ?_ (List.nodup_range N)
    intro x hx y hy hxy
    calc x = interleave_index (interleave_index x) := (interleave_index_invol x).symm
    _ = interleave_index (interleave_index y) := by rw [hxy]
    _ = y := interleave_index_invol y
  · exact List.nodup_range N
  · apply Finset.ext
    intro a
    simp only [List.mem_toFinset, List.mem_map, List.mem_range]
    constructor
    · rintro ⟨k, hk, rfl⟩
      exact interleave_index_lt N k hN hk
    · intro ha
      exact ⟨interleave_index a, interleave_index_lt N a hN ha, interleave_index_invol a⟩

/-- On images made of whole tracks, deinterleaving permutes the bytes:
every input byte appears exactly once in the output. -/
theorem deinterleave_perm (contents : List Nat) (h : 4096 ∣ contents.length) :
    (deinterleave contents).Perm contents := by
  have hN : contents.length / 256 / 16 * 4096 = contents.length := by
    obtain ⟨m, hm⟩ := h
    omega
  rw [deinterleave_eq_map, hN]
  have hcomp : (fun k => contents.getD (interleave_index k) 0) =
      ((fun k => contents.getD k 0) ∘ interleave_index) := rfl
  rw [hcomp, ← List.map_map]
  refine ((range_map_interleave_perm contents.length h).map
    (fun k => contents.getD k 0)).trans ?_
  rw [← list_eq_map_range_getD]

/-- Claim C1: on every raw image whose length is a whole number of
4096-byte tracks, `read_buffer` succeeds (its final length assert holds)
with an output of exactly the input's length; for every track `t`,
logical sector `L < 16` and byte `j < 256`, output byte
`t * 4096 + L * 256 + j` equals input byte
`t * 4096 + sector_map[L] * 256 + j`; and the output is a byte-level
permutation of the input - every input byte appears exactly once. -/
theorem c1_deinterleaver_is_permutation (contents : List Nat)
    (h : 4096 ∣ contents.length) :
    ∃ buffer, read_buffer contents = some buffer ∧
      buffer.length = contents.length ∧
      (∀ t L j, t < contents.length / 4096 → L < 16 → j < 256 →
        buffer.getD (t * 4096 + L * 256 + j) 0 =
          contents.getD (t * 4096 + sector_map.getD L 0 * 256 + j) 0) ∧
      buffer.Perm contents := by
  have hN : contents.length / 256 / 16 * 4096 = contents.length := by
    obtain ⟨m, hm⟩ := h
    omega
  have hlen : (deinterleave contents).length = contents.length := by
    rw [deinterleave_length, hN]
  refine ⟨deinterleave contents, ?_, hlen, ?_, deinterleave_perm contents h⟩
  · unfold read_buffer
    rw [if_pos hlen.symm]
  · intro t L j ht hL hj
    have hdiv : contents.length / 4096 * 4096 ≤ contents.length := Nat.div_mul_le_self _ _
    have hk : t * 4096 + L * 256 + j < contents.length / 256 / 16 * 4096 := by
      rw [hN]
      omega
    have hidx : interleave_index (t * 4096 + L * 256 + j) =
        t * 4096 + sector_map.getD L 0 * 256 + j := by
      unfold interleave_index
      have e1 : (t * 4096 + L * 256 + j) % 4096 / 256 = L := by omega
      have e2 : (t * 4096 + L * 256 + j) / 4096 = t := by omega
      have e3 : (t * 4096 + L * 256 + j) % 256 = j := by omega
      rw [e1, e2, e3]
      omega
    rw [deinterleave_getD contents _ hk, hidx]

/-- Witness for C1: the claim instantiated at a concrete one-track image
of 4096 bytes, each holding 7. -/
theorem c1_deinterleaver_is_permutation_witness :
    (4096 : Nat) ∣ (List.replicate 4096 (7 : Nat)).length ∧
    (∃ buffer, read_buffer (List.replicate 4096 (7 : Nat)) = some buffer ∧
      buffer.length = (List.replicate 4096 (7 : Nat)).length ∧
      (∀ t L j, t < (List.replicate 4096 (7 : Nat)).length / 4096 → L < 16 → j < 256 →
        buffer.getD (t * 4096 + L * 256 + j) 0 =
          (List.replicate 4096 (7 : Nat)).getD
            (t * 4096 + sector_map.getD L 0 * 256 + j) 0) ∧
      buffer.Perm (List.replicate 4096 (7 : Nat))) := by
  have hd : (4096 : Nat) ∣ (List.replicate 4096 (7 : Nat)).length := by
    rw [List.length_replicate]
  exact ⟨hd, c1_deinterleaver_is_permutation _ hd⟩
